import Mathlib

/-!
Verification of the retrieval ranking engine of the my-wasm-search
repository (src/server/domain/services/SearchService.ts and the data
model in src/server/domain/models.ts), as a shallow embedding.

Numeric scores are modelled over ℚ.  JS number arithmetic on the small
integral/rational values manipulated here (Jaccard ratios, reciprocal
rank contributions) is exact, except for the cosine kernel, whose value
needs square roots; that kernel lives in the external wasm-similarity
package (not part of the sources under verification) and is modelled
from the spec with its numeric core abstracted as a parameter.
-/

namespace WasmSearch

/-! ## Data model (src/server/domain/models.ts) -/

structure TextChunk where
  id : String
  text : String
deriving DecidableEq, Repr

structure VectorRecord where
  id : String
  vector : List ℚ
deriving DecidableEq, Repr

structure DocumentData where
  title : Option String
  textChunks : List TextChunk
  vectorRecords : List VectorRecord
deriving DecidableEq, Repr

structure NeighborChunks where
  prev : Option String
  next : Option String
deriving DecidableEq, Repr

structure SearchResult where
  id : String
  text : String
  similarity : ℚ
  documentId : String
  semanticScore : Option ℚ
  keywordScore : Option ℚ
  rank : ℕ
  chunkIndex : ℕ
  totalChunks : ℕ
  documentTitle : Option String
  highlights : List String
  neighborChunks : NeighborChunks
deriving DecidableEq, Repr

inductive SearchMode where
  | semantic
  | keyword
  | hybrid
deriving DecidableEq, Repr

instance : Inhabited SearchResult :=
  ⟨{ id := "", text := "", similarity := 0, documentId := "",
     semanticScore := none, keywordScore := none, rank := 0,
     chunkIndex := 0, totalChunks := 0, documentTitle := none,
     highlights := [], neighborChunks := { prev := none, next := none } }⟩

/-! ## Tokenizer (SearchService.ts, tokenize / tokenizeToStrings /
extractHighlights).  JS string semantics are modelled at the ASCII
level: the regex classes \w and \s are ASCII word characters and
whitespace, every other character is replaced by a space before
splitting, so surviving tokens consist of ASCII word characters only
and charCodeAt coincides with the code point. -/

def isWordChar (c : Char) : Bool :=
  c.isAlpha || c.isDigit || c = '_'

def normalizeChar (c : Char) : Char :=
  let lc := c.toLower
  if isWordChar lc || lc.isWhitespace then lc else ' '

def tokenizeToStrings (text : String) : List String :=
  ((((text.data.map normalizeChar).splitOnP (fun c => c.isWhitespace)).map
    (fun l => String.mk l)).filter (fun t => 1 < t.length))

/-- Wrap an integer into the signed 32-bit range, as the JS `| 0`
coercion does. -/
def toInt32 (n : ℤ) : ℤ := (n + 2 ^ 31) % 2 ^ 32 - 2 ^ 31

/-- The polynomial rolling hash `hash = (hash * 31 + charCode) | 0`
from tokenize. -/
def hashToken (t : String) : ℤ :=
  t.data.foldl (fun h c => toInt32 (h * 31 + c.toNat)) 0

/-- Deduplication keeping the first occurrence of each element, as a JS
`Set` does (insertion order).  Written with the filter after the
recursive call (equivalent to filtering first) so the recursion is
structural. -/
def dedupFirst {α : Type} [DecidableEq α] : List α → List α
  | [] => []
  | x :: xs => x :: (dedupFirst xs).filter (fun y => y ≠ x)

def tokenize (text : String) : List ℤ :=
  dedupFirst ((tokenizeToStrings text).map hashToken)

def extractHighlights (text query : String) : List String :=
  let queryTokens := tokenizeToStrings query
  dedupFirst ((tokenizeToStrings text).filter (fun t => t ∈ queryTokens))

/-! ## Similarity primitives.  The wasm-similarity package is not part
of the sources under verification; the two kernels the engine calls are
modelled from the spec (§4.1). -/

/-- Modelled from the spec: `jaccardIndex(setA, setB)` is
`|A∩B| / |A∪B|` over sets of hashed tokens, and returns 0 if either
set is empty. -/
def jaccard_index (a b : List ℤ) : ℚ :=
  let A := dedupFirst a
  let B := dedupFirst b
  if A.length = 0 ∨ B.length = 0 then 0
  else ((A.filter (fun x => x ∈ B)).length : ℚ) /
       (((A ++ B.filter (fun x => x ∉ A)).length : ℚ))

inductive SimError where
  | dimensionMismatch
deriving DecidableEq, Repr

instance {ε α : Type} [DecidableEq ε] [DecidableEq α] :
    DecidableEq (Except ε α) := fun a b =>
  match a, b with
  | Except.error x, Except.error y =>
    if h : x = y then Decidable.isTrue (h ▸ rfl)
    else Decidable.isFalse (fun hc => h (Except.error.inj hc))
  | Except.ok x, Except.ok y =>
    if h : x = y then Decidable.isTrue (h ▸ rfl)
    else Decidable.isFalse (fun hc => h (Except.ok.inj hc))
  | Except.error _, Except.ok _ =>
    Decidable.isFalse (fun hc => Except.noConfusion hc)
  | Except.ok _, Except.error _ =>
    Decidable.isFalse (fun hc => Except.noConfusion hc)

def dot (a b : List ℚ) : ℚ := (List.zipWith (fun x y => x * y) a b).sum

/-- Modelled from the spec: `cosineSimilarity(a, b)` fails with a
DimensionMismatch condition if the lengths differ and returns 0 when
either vector has zero magnitude.  The cosine value itself needs a
square root, which has no exact rational evaluation; it is abstracted
as the parameter `sim`, standing for the true cosine.  No claim under
verification depends on the numeric cosine value. -/
def cosineSimilarity (sim : List ℚ → List ℚ → ℚ) (a b : List ℚ) :
    Except SimError ℚ :=
  if a.length = b.length then
    if dot a a = 0 ∨ dot b b = 0 then Except.ok 0 else Except.ok (sim a b)
  else Except.error SimError.dimensionMismatch

/-! ## Stable descending sort, as JS `Array.prototype.sort` with the
comparator `(a, b) => b.score - a.score` (stable since ES2019): sorted
descending by the key, ties keeping original order. -/

def insertDesc {α : Type} (key : α → ℚ) (x : α) : List α → List α
  | [] => [x]
  | y :: ys => if key y ≤ key x then x :: y :: ys else y :: insertDesc key x ys

def sortDesc {α : Type} (key : α → ℚ) : List α → List α
  | [] => []
  | x :: xs => insertDesc key x (sortDesc key xs)

/-! ## Batched cosine ranking kernel, modelled from the spec:
`batchCosineRank(vectors, n, dim, query)` reads candidate `i` as the
slice of `dim` numbers at offset `i * dim` of the flat buffer, compares
each against the query with `cosineSimilarity`, and returns `(score,
originalIndex)` pairs sorted descending by score, ties broken by
original index ascending (stable). -/

def sliceAt (buf : List ℚ) (dim i : ℕ) : List ℚ :=
  (buf.drop (i * dim)).take dim

/-- Map a fallible function over a list, aborting at the first error. -/
def exceptMap {ε α β : Type} (f : α → Except ε β) : List α → Except ε (List β)
  | [] => Except.ok []
  | x :: xs =>
    match f x with
    | Except.error e => Except.error e
    | Except.ok y =>
      match exceptMap f xs with
      | Except.error e => Except.error e
      | Except.ok ys => Except.ok (y :: ys)

/-- Modelled from the spec: the `cosine_similarity_dataspace` kernel of
the wasm-similarity package (called by semanticSearch and
hybridSearch), as `batchCosineRank` of spec §4.1. -/
def cosine_similarity_dataspace (sim : List ℚ → List ℚ → ℚ) (buf : List ℚ)
    (n dim : ℕ) (query : List ℚ) : Except SimError (List (ℚ × ℕ)) :=
  match exceptMap (fun i =>
      match cosineSimilarity sim (sliceAt buf dim i) query with
      | Except.error e => Except.error e
      | Except.ok s => Except.ok (s, i)) (List.range n) with
  | Except.error e => Except.error e
  | Except.ok scored => Except.ok (sortDesc (fun p => p.1) scored)

/-! ## JS Map model: association list in insertion order, `set` updates
in place or appends, `get` looks the key up, iteration follows the
list. -/

def mapSet (m : List (ℕ × ℚ)) (k : ℕ) (v : ℚ) : List (ℕ × ℚ) :=
  if m.any (fun p => p.1 = k) then
    m.map (fun p => if p.1 = k then (k, v) else p)
  else m ++ [(k, v)]

def mapGet (m : List (ℕ × ℚ)) (k : ℕ) : Option ℚ :=
  (m.find? (fun p => p.1 = k)).map (fun p => p.2)

def mapKeys (m : List (ℕ × ℚ)) : List ℕ := m.map (fun p => p.1)

/-! ## Rank fusion (SearchService.ts, reciprocalRankFusion). -/

/-- One reciprocal-rank contribution: `1 / (k + rank)`, where an absent
rank is `Infinity` in the source and contributes 0. -/
def rrfContribution (r : Option ℚ) (k : ℚ) : ℚ :=
  match r with
  | some rank => 1 / (k + rank)
  | none => 0

def reciprocalRankFusion (semanticRanks keywordRanks : List (ℕ × ℚ))
    (k : ℚ) : List (ℕ × ℚ) :=
  let allIndices := dedupFirst (mapKeys semanticRanks ++ mapKeys keywordRanks)
  allIndices.foldl (fun scores idx =>
    mapSet scores idx (rrfContribution (mapGet semanticRanks idx) k +
      rrfContribution (mapGet keywordRanks idx) k)) []

/-! ## Document index builder (SearchService.ts, search lines 102-137). -/

structure VectorMetadata where
  docId : String
  docTitle : Option String
  chunkId : String
  chunkIndex : ℕ
  totalChunks : ℕ
  text : String
  prevChunkId : Option String
  nextChunkId : Option String
deriving DecidableEq, Repr

instance : Inhabited VectorMetadata :=
  ⟨{ docId := "", docTitle := none, chunkId := "", chunkIndex := 0,
     totalChunks := 0, text := "", prevChunkId := none, nextChunkId := none }⟩

def emptyChunk : TextChunk := { id := "", text := "" }

/-- The `chunkIdToIndex` JS Map: built by a forEach of `set`, so a
duplicate chunk id maps to the index of its last occurrence. -/
def chunkIdToIndex (chunks : List TextChunk) (id : String) : Option ℕ :=
  (((chunks.enum).filter (fun p => p.2.id = id)).map (fun p => p.1)).getLast?

/-- The metadata entry emitted for one vector record, or none when its
id matches no chunk (the `continue` branch). -/
def metaForRecord (docId : String) (docData : DocumentData)
    (vr : VectorRecord) : Option VectorMetadata :=
  (chunkIdToIndex docData.textChunks vr.id).map (fun ci =>
    { docId := docId
      docTitle := docData.title
      chunkId := vr.id
      chunkIndex := ci
      totalChunks := docData.textChunks.length
      text := (docData.textChunks.getD ci emptyChunk).text
      prevChunkId :=
        if 0 < ci then some ((docData.textChunks.getD (ci - 1) emptyChunk).id)
        else none
      nextChunkId :=
        if ci < docData.textChunks.length - 1 then
          some ((docData.textChunks.getD (ci + 1) emptyChunk).id)
        else none })

/-- The `(metadata, vector)` pairs one document contributes, in record
order. -/
def buildDoc (docId : String) (docData : DocumentData) :
    List (VectorMetadata × List ℚ) :=
  docData.vectorRecords.filterMap (fun vr =>
    (metaForRecord docId docData vr).map (fun m => (m, vr.vector)))

/-- The index builder: parallel metadata list and flat vector buffer,
plus the tracked dimensionality (last matched record wins, 0 when no
record matched). -/
def buildIndex (docs : List (String × DocumentData)) :
    List VectorMetadata × List ℚ × ℕ :=
  let entries := docs.flatMap (fun p => buildDoc p.1 p.2)
  (entries.map (fun e => e.1),
   entries.flatMap (fun e => e.2),
   ((entries.map (fun e => e.2.length)).getLast?).getD 0)

/-! ## Retrieval engine (SearchService.ts, SearchService). -/

/-- `l.slice(0, e)` of JS: a negative end index counts from the end of
the array (`max(length + e, 0)`), a nonnegative one is clamped to the
length. -/
def jsSliceTo {α : Type} (l : List α) (e : ℤ) : List α :=
  if e < 0 then l.take (l.length - (-e).toNat) else l.take e.toNat

/-- The result-object literal shared by the three modes: every field
besides similarity, the optional mode scores and the 1-based rank is
copied from the VectorMetadata of the candidate. -/
def mkResult (query : String) (m : VectorMetadata) (similarity : ℚ)
    (semanticScore keywordScore : Option ℚ) (rank : ℕ) : SearchResult :=
  { id := m.chunkId
    text := m.text
    similarity := similarity
    documentId := m.docId
    semanticScore := semanticScore
    keywordScore := keywordScore
    rank := rank
    chunkIndex := m.chunkIndex
    totalChunks := m.totalChunks
    documentTitle := m.docTitle
    highlights := extractHighlights m.text query
    neighborChunks := { prev := m.prevChunkId, next := m.nextChunkId } }

/-- The `scored` array of keywordSearch: index/score pairs of the
entries whose chunk token set is nonempty and whose Jaccard score
against the query tokens is strictly positive. -/
def keywordCandidates (query : String) (metadata : List VectorMetadata) :
    List (ℕ × ℚ) :=
  (metadata.enum).filterMap (fun p =>
    let chunkTokens := tokenize p.2.text
    if chunkTokens.length = 0 then none
    else
      let score := jaccard_index (tokenize query) chunkTokens
      if 0 < score then some (p.1, score) else none)

def keywordSearch (query : String) (topK : ℤ)
    (metadata : List VectorMetadata) : List SearchResult :=
  if (tokenize query).length = 0 then []
  else
    let sorted := sortDesc (fun p => p.2) (keywordCandidates query metadata)
    (jsSliceTo sorted topK).enum.map (fun q =>
      mkResult query (metadata.getD q.2.1 default) q.2.2 none (some q.2.2)
        (q.1 + 1))

def semanticSearch (sim : List ℚ → List ℚ → ℚ) (query : String)
    (queryVector : List ℚ) (topK : ℤ) (metadata : List VectorMetadata)
    (vectors : List ℚ) (dim : ℕ) : Except SimError (List SearchResult) :=
  match cosine_similarity_dataspace sim vectors metadata.length dim
      queryVector with
  | Except.error e => Except.error e
  | Except.ok rankings =>
    Except.ok (((rankings.take (min topK (rankings.length : ℤ)).toNat).enum).map
      (fun q =>
        mkResult query (metadata.getD q.2.2 default) q.2.1 (some q.2.1) none
          (q.1 + 1)))

structure ScoredCandidate where
  idx : ℕ
  semanticScore : ℚ
  keywordScore : ℚ
  rrfScore : ℚ
deriving DecidableEq, Repr

/-- The `keywordScored` array of hybridSearch: every index is scored,
with 0 when either token set is empty. -/
def hybridKeywordScored (query : String) (metadata : List VectorMetadata) :
    List (ℕ × ℚ) :=
  (metadata.enum).map (fun p =>
    let chunkTokens := tokenize p.2.text
    if chunkTokens.length = 0 ∨ (tokenize query).length = 0 then (p.1, (0 : ℚ))
    else (p.1, jaccard_index (tokenize query) chunkTokens))

/-- A JS Map from index to 1-based position, filled by iterating the
given pairs in order. -/
def rankMapOf (pairs : List (ℕ × ℚ)) : List (ℕ × ℚ) :=
  (pairs.enum).foldl (fun m q => mapSet m q.2.1 ((q.1 : ℚ) + 1)) []

/-- A JS Map from index to score, filled by iterating the given pairs
in order. -/
def scoreMapOf (pairs : List (ℕ × ℚ)) : List (ℕ × ℚ) :=
  pairs.foldl (fun m q => mapSet m q.1 q.2) []

/-- The index/score pairs of the semantic ranking, as inserted into the
semanticScores and semanticRanks maps. -/
def semanticPairs (rankings : List (ℚ × ℕ)) : List (ℕ × ℚ) :=
  rankings.map (fun p => (p.2, p.1))

def keywordSortedOf (query : String) (metadata : List VectorMetadata) :
    List (ℕ × ℚ) :=
  sortDesc (fun p => p.2) (hybridKeywordScored query metadata)

/-- The fused candidate array of hybridSearch: build the four
score/rank maps, fuse, and read the fused map off in insertion
order. -/
def hybridCandidates (query : String) (metadata : List VectorMetadata)
    (rankings : List (ℚ × ℕ)) : List ScoredCandidate :=
  let semanticScores := scoreMapOf (semanticPairs rankings)
  let semanticRanks := rankMapOf (semanticPairs rankings)
  let keywordSorted := keywordSortedOf query metadata
  let keywordScores := scoreMapOf keywordSorted
  let keywordRanks := rankMapOf keywordSorted
  let rrfScores := reciprocalRankFusion semanticRanks keywordRanks 60
  rrfScores.map (fun p =>
    { idx := p.1
      semanticScore := (mapGet semanticScores p.1).getD 0
      keywordScore := (mapGet keywordScores p.1).getD 0
      rrfScore := p.2 })

/-- Everything hybridSearch does after the kernel call: fuse, sort by
fused score and materialize the top-K results. -/
def hybridFromRankings (query : String) (topK : ℤ)
    (metadata : List VectorMetadata) (rankings : List (ℚ × ℕ)) :
    List SearchResult :=
  let sortedC := sortDesc (fun c => c.rrfScore)
    (hybridCandidates query metadata rankings)
  (jsSliceTo sortedC topK).enum.map (fun q =>
    mkResult query (metadata.getD q.2.idx default) q.2.rrfScore
      (some q.2.semanticScore) (some q.2.keywordScore) (q.1 + 1))

def hybridSearch (sim : List ℚ → List ℚ → ℚ) (query : String)
    (queryVector : List ℚ) (topK : ℤ) (metadata : List VectorMetadata)
    (vectors : List ℚ) (dim : ℕ) : Except SimError (List SearchResult) :=
  match cosine_similarity_dataspace sim vectors metadata.length dim
      queryVector with
  | Except.error e => Except.error e
  | Except.ok rankings =>
    Except.ok (hybridFromRankings query topK metadata rankings)

/-! ## Document store
(src/server/infrastructure/repositories/InMemoryDocumentStore.ts): a JS
Map from document id to DocumentData, modelled as its entry list with
unique keys.  `find` and `getAll` only read the map (`Map.get`,
`Map.entries`), so they are embedded as pure functions of the store
value. -/

structure Store where
  docs : List (String × DocumentData)
deriving DecidableEq, Repr

def Store.find (s : Store) (id : String) : Option DocumentData :=
  (s.docs.find? (fun p => p.1 = id)).map (fun p => p.2)

def Store.getAll (s : Store) : List (String × DocumentData) := s.docs

/-- The document scope of one search call.  `if (documentId)` in JS is
false for both undefined and the empty string, so an empty-string id
behaves like no filter. -/
def scopedDocs (store : Store) (documentId : Option String) :
    List (String × DocumentData) :=
  match documentId with
  | some id =>
    if id = "" then store.getAll
    else
      match store.find id with
      | some d => [(id, d)]
      | none => []
  | none => store.getAll

/-- The search entry point, instrumented for the frame conditions: the
second component is the document store as left behind by the call and
the third counts invocations of the embedding capability `embed`. -/
def searchCounted (sim : List ℚ → List ℚ → ℚ) (embed : String → List ℚ)
    (store : Store) (query : String) (topK : ℤ) (documentId : Option String)
    (mode : SearchMode) : Except SimError (List SearchResult) × Store × ℕ :=
  let docsToSearch := scopedDocs store documentId
  let built := buildIndex docsToSearch
  let metadata := built.1
  let vectors := built.2.1
  let dim := built.2.2
  if metadata.length = 0 then (Except.ok [], store, 0)
  else
    match mode with
    | SearchMode.keyword =>
      (Except.ok (keywordSearch query topK metadata), store, 0)
    | SearchMode.semantic =>
      (semanticSearch sim query (embed query) topK metadata vectors dim,
       store, 1)
    | SearchMode.hybrid =>
      (hybridSearch sim query (embed query) topK metadata vectors dim,
       store, 1)

def search (sim : List ℚ → List ℚ → ℚ) (embed : String → List ℚ)
    (store : Store) (query : String) (topK : ℤ) (documentId : Option String)
    (mode : SearchMode) : Except SimError (List SearchResult) :=
  (searchCounted sim embed store query topK documentId mode).1

/-- The number of candidates that participate in the final truncation
of each mode: the positively scored entries for keyword mode, every
indexed chunk for semantic and hybrid. -/
def matchingCandidates (query : String) (mode : SearchMode)
    (metadata : List VectorMetadata) : ℕ :=
  match mode with
  | SearchMode.keyword => (keywordCandidates query metadata).length
  | SearchMode.semantic => metadata.length
  | SearchMode.hybrid => metadata.length

/-- The copied-from-metadata part of a result row: every field of the
result literal other than similarity, the mode scores and the rank. -/
def MetaFields (r : SearchResult) (m : VectorMetadata) : Prop :=
  r.id = m.chunkId ∧ r.documentId = m.docId ∧ r.chunkIndex = m.chunkIndex ∧
  r.totalChunks = m.totalChunks ∧ r.documentTitle = m.docTitle ∧
  r.neighborChunks.prev = m.prevChunkId ∧ r.neighborChunks.next = m.nextChunkId

/-! ## Concrete evaluation data.  `simExample` agrees with the true
cosine on the vector pairs it is applied to below: the query embedding
is the unit vector [1,0,0], and cos([3,4,0],[1,0,0]) = 3/5,
cos([1,0,0],[1,0,0]) = 1, cos([0,1,0],[1,0,0]) = 0. -/

def exampleDoc : DocumentData :=
  { title := some "Example"
    textChunks := [⟨"c0", "fox a"⟩, ⟨"c1", "cat b"⟩, ⟨"c2", "fox c"⟩]
    vectorRecords := [⟨"c0", [3, 4, 0]⟩, ⟨"c1", [0, 1, 0]⟩, ⟨"c2", [1, 0, 0]⟩] }

def exampleStore : Store := ⟨[("doc1", exampleDoc)]⟩

def simExample (a _b : List ℚ) : ℚ :=
  if a = [3, 4, 0] then 3 / 5 else if a = [1, 0, 0] then 1 else 0

def embedExample (_query : String) : List ℚ := [1, 0, 0]

/-- A document whose two vector records have different lengths (3 and
2): the builder records the last-seen dimensionality 2. -/
def mixedDoc : DocumentData :=
  { title := none
    textChunks := [⟨"c0", "fox"⟩, ⟨"c1", "fox"⟩]
    vectorRecords := [⟨"c0", [1, 1, 1]⟩, ⟨"c1", [2, 2]⟩] }

def mixedStore : Store := ⟨[("m", mixedDoc)]⟩

/-- An embedding of length 2, matching the last-seen dimensionality of
mixedDoc. -/
def embedTwo (_query : String) : List ℚ := [1, 0]

/-- An embedding of length 1, matching the dimensionality of
smallDoc. -/
def embedOne (_query : String) : List ℚ := [1]

def c1rs : List SearchResult :=
  ((search simExample embedExample exampleStore "fox" 1 none
    SearchMode.keyword).toOption).getD []

def exampleMetadata : List VectorMetadata :=
  (buildIndex (scopedDocs exampleStore none)).1

def exampleVectors : List ℚ :=
  (buildIndex (scopedDocs exampleStore none)).2.1

def smallDoc : DocumentData :=
  { title := none
    textChunks := [⟨"s0", "fox"⟩]
    vectorRecords := [⟨"s0", [1]⟩] }

def smallStore : Store := ⟨[("s", smallDoc)]⟩

def smallMetadata : List VectorMetadata :=
  (buildIndex (scopedDocs smallStore none)).1

def smallVectors : List ℚ :=
  (buildIndex (scopedDocs smallStore none)).2.1

def c2rs : List SearchResult :=
  ((hybridSearch simExample "fox" [1] 2 smallMetadata
    smallVectors 1).toOption).getD []

def danglingDoc : DocumentData :=
  { title := none
    textChunks := [⟨"c0", "fox"⟩]
    vectorRecords := [⟨"c0", [1]⟩, ⟨"ghost", [2]⟩] }

def c5rs : List SearchResult :=
  ((search simExample embedExample exampleStore "fox" 3 none
    SearchMode.semantic).toOption).getD []

def c9rs : List SearchResult :=
  ((search simExample embedExample exampleStore "fox" 3 none
    SearchMode.keyword).toOption).getD []

/-- Three chunks with empty texts (so an empty query and empty chunks
token sets give every candidate keyword score 0) whose vectors are, in
semantic order for the query embedding [1,0,0]: c2 (cosine 1), c0
(cosine 3/5), c1 (cosine 0). -/
def c10Doc : DocumentData :=
  { title := none
    textChunks := [⟨"c0", ""⟩, ⟨"c1", ""⟩, ⟨"c2", ""⟩]
    vectorRecords := [⟨"c0", [3, 4, 0]⟩, ⟨"c1", [0, 1, 0]⟩, ⟨"c2", [1, 0, 0]⟩] }

def c10Store : Store := ⟨[("d", c10Doc)]⟩

def c10srs : List SearchResult :=
  ((search simExample embedOne smallStore "" 3 none
    SearchMode.hybrid).toOption).getD []

/-! ## Helper lemmas: stable descending sort. -/

theorem getLast?_mem {α : Type} : ∀ {l : List α} {x : α},
    l.getLast? = some x → x ∈ l
  | [], x, h => by simp at h
  | [a], x, h => by
    simp only [List.getLast?_singleton, Option.some.injEq] at h
    simp [h]
  | a :: b :: l, x, h => by
    rw [List.getLast?_cons_cons] at h
    exact List.mem_cons_of_mem _ (getLast?_mem h)

theorem perm_insertDesc {α : Type} (key : α → ℚ) (x : α) :
    ∀ l : List α, (insertDesc key x l).Perm (x :: l)
  | [] => List.Perm.refl _
  | y :: ys => by
    simp only [insertDesc]
    split
    · exact List.Perm.refl _
    · exact ((perm_insertDesc key x ys).cons y).trans (List.Perm.swap x y ys)

theorem mem_insertDesc {α : Type} {key : α → ℚ} {x z : α} {l : List α} :
    z ∈ insertDesc key x l ↔ z = x ∨ z ∈ l := by
  rw [(perm_insertDesc key x l).mem_iff]
  simp

theorem sorted_insertDesc {α : Type} {key : α → ℚ} {x : α} : ∀ {l : List α},
    List.Pairwise (fun a b => key b ≤ key a) l →
    List.Pairwise (fun a b => key b ≤ key a) (insertDesc key x l)
  | [], _ => by simp [insertDesc]
  | y :: ys, h => by
    simp only [insertDesc]
    rcases List.pairwise_cons.mp h with ⟨hy, hys⟩
    split
    · next hle =>
      refine List.pairwise_cons.mpr ⟨?_, h⟩
      intro z hz
      rcases List.mem_cons.mp hz with rfl | hz
      · exact hle
      · exact le_trans (hy z hz) hle
    · next hlt =>
      push_neg at hlt
      refine List.pairwise_cons.mpr ⟨?_, sorted_insertDesc hys⟩
      intro z hz
      rcases mem_insertDesc.mp hz with rfl | hz
      · exact le_of_lt hlt
      · exact hy z hz

theorem perm_sortDesc {α : Type} (key : α → ℚ) :
    ∀ l : List α, (sortDesc key l).Perm l
  | [] => List.Perm.refl _
  | x :: xs => (perm_insertDesc key x _).trans ((perm_sortDesc key xs).cons x)

theorem length_sortDesc {α : Type} (key : α → ℚ) (l : List α) :
    (sortDesc key l).length = l.length :=
  (perm_sortDesc key l).length_eq

theorem mem_sortDesc {α : Type} {key : α → ℚ} {z : α} {l : List α} :
    z ∈ sortDesc key l ↔ z ∈ l :=
  (perm_sortDesc key l).mem_iff

theorem sorted_sortDesc {α : Type} (key : α → ℚ) :
    ∀ l : List α, List.Pairwise (fun a b => key b ≤ key a) (sortDesc key l)
  | [] => List.Pairwise.nil
  | _x :: xs => sorted_insertDesc (sorted_sortDesc key xs)

/-! ## Helper lemmas: first-occurrence deduplication. -/

theorem mem_dedupFirst {α : Type} [DecidableEq α] {l : List α} {a : α} :
    a ∈ dedupFirst l ↔ a ∈ l := by
  induction l with
  | nil => simp [dedupFirst]
  | cons x xs ih =>
    rw [dedupFirst]
    constructor
    · intro h
      rcases List.mem_cons.mp h with rfl | h
      · exact List.mem_cons_self _ _
      · exact List.mem_cons_of_mem _ (ih.mp (List.mem_filter.mp h).1)
    · intro h
      rcases List.mem_cons.mp h with rfl | h
      · exact List.mem_cons_self _ _
      · by_cases hax : a = x
        · exact hax ▸ List.mem_cons_self _ _
        · exact List.mem_cons_of_mem _
            (List.mem_filter.mpr ⟨ih.mpr h, by simpa using hax⟩)

theorem nodup_dedupFirst {α : Type} [DecidableEq α] :
    ∀ l : List α, (dedupFirst l).Nodup
  | [] => by rw [dedupFirst]; exact List.nodup_nil
  | x :: xs => by
    rw [dedupFirst]
    refine List.nodup_cons.mpr ⟨?_, (nodup_dedupFirst xs).filter _⟩
    intro hmem
    have := (List.mem_filter.mp hmem).2
    simp at this

theorem dedupFirst_nodup_id {α : Type} [DecidableEq α] :
    ∀ {A : List α}, A.Nodup → dedupFirst A = A
  | [], _ => rfl
  | a :: A, hA => by
    rw [dedupFirst]
    have hA' := List.nodup_cons.mp hA
    rw [dedupFirst_nodup_id hA'.2]
    congr 1
    refine List.filter_eq_self.mpr (fun b hb => ?_)
    simp only [ne_eq, decide_not, Bool.not_eq_eq_eq_not, Bool.not_true,
      decide_eq_false_iff_not]
    rintro rfl
    exact hA'.1 hb

theorem dedupFirst_append_split {α : Type} [DecidableEq α] :
    ∀ (A B : List α), dedupFirst (A ++ B) =
      dedupFirst A ++ (dedupFirst B).filter (fun b => b ∉ A)
  | [], B => by
    simp only [List.nil_append, dedupFirst]
    rw [List.filter_eq_self.mpr]
    intro b _
    simp
  | a :: A, B => by
    rw [List.cons_append, dedupFirst, dedupFirst, dedupFirst_append_split A B]
    rw [List.filter_append, List.cons_append]
    congr 2
    rw [List.filter_filter]
    refine List.filter_congr (fun b _ => ?_)
    by_cases hba : b = a
    · simp [hba]
    · by_cases hbA : b ∈ A <;> simp [hba, hbA]

theorem dedupFirst_append {α : Type} [DecidableEq α] {A B : List α}
    (hA : A.Nodup) (hB : ∀ b ∈ B, b ∈ A) : dedupFirst (A ++ B) = A := by
  rw [dedupFirst_append_split A B, dedupFirst_nodup_id hA]
  rw [show (dedupFirst B).filter (fun b => b ∉ A) = [] from ?_]
  · exact List.append_nil A
  · rw [List.filter_eq_nil_iff]
    intro b hb
    simp only [decide_not, Bool.not_eq_true', decide_eq_false_iff_not,
      Decidable.not_not]
    exact hB b (mem_dedupFirst.mp hb)

/-! ## Helper lemmas: JS Map built by a fold of fresh-key inserts. -/

theorem foldl_mapSet_eq_append {α : Type} (f : α → ℕ) (g : α → ℚ) :
    ∀ (l : List α) (m : List (ℕ × ℚ)),
      (∀ a ∈ l, ∀ q ∈ m, q.1 ≠ f a) → (l.map f).Nodup →
      l.foldl (fun acc a => mapSet acc (f a) (g a)) m =
        m ++ l.map (fun a => (f a, g a))
  | [], m, _, _ => by simp
  | a :: l, m, hdisj, hnd => by
    simp only [List.foldl_cons]
    have hfresh : ¬ m.any (fun p => p.1 = f a) = true := by
      simp only [List.any_eq_true, not_exists]
      intro q
      simp only [not_and, decide_eq_true_eq]
      exact fun hq => hdisj a (List.mem_cons_self _ _) q hq
    rw [show mapSet m (f a) (g a) = m ++ [(f a, g a)] from by
      simp [mapSet, hfresh]]
    rw [List.map_cons] at hnd
    have hnd' := List.nodup_cons.mp hnd
    rw [foldl_mapSet_eq_append f g l (m ++ [(f a, g a)]) ?_ hnd'.2]
    · simp
    · intro b hb q hq
      rcases List.mem_append.mp hq with hq | hq
      · exact hdisj b (List.mem_cons_of_mem _ hb) q hq
      · simp only [List.mem_singleton] at hq
        subst hq
        intro hcontra
        refine hnd'.1 ?_
        rw [show f a = f b from hcontra]
        exact List.mem_map_of_mem f hb

theorem mapGet_map {α : Type} (f : α → ℕ) (g : α → ℚ) (l : List α) (k : ℕ) :
    mapGet (l.map (fun a => (f a, g a))) k =
      (l.find? (fun a => f a = k)).map g := by
  induction l with
  | nil => rfl
  | cons a l ih =>
    by_cases h : f a = k
    · simp [mapGet, List.find?_cons, h]
    · simpa [mapGet, List.find?_cons, h] using ih

theorem mapKeys_map {α : Type} (f : α → ℕ) (g : α → ℚ) (l : List α) :
    mapKeys (l.map (fun a => (f a, g a))) = l.map f := by
  simp [mapKeys, List.map_map]

theorem rankMapOf_eq (pairs : List (ℕ × ℚ))
    (h : (pairs.map (fun p => p.1)).Nodup) :
    rankMapOf pairs = pairs.enum.map (fun q => (q.2.1, (q.1 : ℚ) + 1)) := by
  unfold rankMapOf
  have hk : pairs.enum.map (fun q : ℕ × ℕ × ℚ => q.2.1) =
      pairs.map (fun p => p.1) := by
    rw [show (fun q : ℕ × ℕ × ℚ => q.2.1) =
      (fun p : ℕ × ℚ => p.1) ∘ Prod.snd from rfl]
    rw [← List.map_map, List.enum_map_snd]
  exact foldl_mapSet_eq_append (fun q => q.2.1) (fun q => (q.1 : ℚ) + 1)
    pairs.enum [] (by intro a _ q hq; simp at hq) (hk ▸ h)

theorem scoreMapOf_eq (pairs : List (ℕ × ℚ))
    (h : (pairs.map (fun p => p.1)).Nodup) :
    scoreMapOf pairs = pairs := by
  unfold scoreMapOf
  have := foldl_mapSet_eq_append (fun q : ℕ × ℚ => q.1) (fun q => q.2)
    pairs [] (by intro a _ q hq; simp at hq) h
  simpa using this

theorem reciprocalRankFusion_eq (A B : List (ℕ × ℚ)) (k : ℚ) :
    reciprocalRankFusion A B k =
      (dedupFirst (mapKeys A ++ mapKeys B)).map (fun i =>
        (i, rrfContribution (mapGet A i) k + rrfContribution (mapGet B i) k)) := by
  unfold reciprocalRankFusion
  have hnd : ((dedupFirst (mapKeys A ++ mapKeys B)).map (fun i => i)).Nodup := by
    simpa using nodup_dedupFirst (mapKeys A ++ mapKeys B)
  have := foldl_mapSet_eq_append (fun i : ℕ => i)
    (fun i => rrfContribution (mapGet A i) k + rrfContribution (mapGet B i) k)
    (dedupFirst (mapKeys A ++ mapKeys B)) [] (by intro a _ q hq; simp at hq) hnd
  simpa using this

/-! ## Helper lemmas: the batched cosine kernel. -/

theorem exceptMap_ok_snd {ε : Type} {f : ℕ → Except ε (ℚ × ℕ)}
    (hf : ∀ i y, f i = Except.ok y → y.2 = i) :
    ∀ {l : List ℕ} {r : List (ℚ × ℕ)},
      exceptMap f l = Except.ok r → r.map (fun p => p.2) = l
  | [], r, h => by
    simp only [exceptMap, Except.ok.injEq] at h
    simp [← h]
  | i :: l, r, h => by
    simp only [exceptMap] at h
    split at h
    · exact absurd h (by simp)
    · next y hy =>
      split at h
      · exact absurd h (by simp)
      · next ys hys =>
        obtain rfl : y :: ys = r := by
          simpa using h
        simp only [List.map_cons]
        rw [exceptMap_ok_snd hf hys, hf i y hy]

/-- On a successful kernel call the returned pairs carry each candidate
index exactly once (their index components are a permutation of
`range n`) and are sorted descending by score. -/
theorem dataspace_ok (sim : List ℚ → List ℚ → ℚ) (buf : List ℚ) (n dim : ℕ)
    (query : List ℚ) (rankings : List (ℚ × ℕ))
    (h : cosine_similarity_dataspace sim buf n dim query =
      Except.ok rankings) :
    (rankings.map (fun p => p.2)).Perm (List.range n) ∧
    List.Pairwise (fun a b : ℚ × ℕ => b.1 ≤ a.1) rankings := by
  unfold cosine_similarity_dataspace at h
  split at h
  · exact absurd h (by simp)
  · next scored hscored =>
    obtain rfl : sortDesc (fun p => p.1) scored = rankings := by
      simpa using h
    have hsnd : scored.map (fun p => p.2) = List.range n := by
      refine exceptMap_ok_snd ?_ hscored
      intro i y hy
      simp only at hy
      split at hy
      · exact absurd hy (by simp)
      · next s hs =>
        obtain rfl : (s, i) = y := by simpa using hy
        rfl
    refine ⟨?_, sorted_sortDesc _ _⟩
    have hp := (perm_sortDesc (fun p => p.1) scored).map (fun p => p.2)
    rw [hsnd] at hp
    exact hp

theorem dataspace_ok_length {sim : List ℚ → List ℚ → ℚ} {buf : List ℚ}
    {n dim : ℕ} {query : List ℚ} {rankings : List (ℚ × ℕ)}
    (h : cosine_similarity_dataspace sim buf n dim query =
      Except.ok rankings) :
    rankings.length = n := by
  have := (dataspace_ok sim buf n dim query rankings h).1.length_eq
  simpa using this

theorem dataspace_ok_idx_lt {sim : List ℚ → List ℚ → ℚ} {buf : List ℚ}
    {n dim : ℕ} {query : List ℚ} {rankings : List (ℚ × ℕ)}
    {p : ℚ × ℕ}
    (h : cosine_similarity_dataspace sim buf n dim query =
      Except.ok rankings) (hp : p ∈ rankings) :
    p.2 < n := by
  have hperm := (dataspace_ok sim buf n dim query rankings h).1
  exact List.mem_range.mp (hperm.mem_iff.mp (List.mem_map_of_mem _ hp))

/-! ## Helper lemmas: JS slice and the shared result assembly. -/

theorem jsSliceTo_of_nonneg {α : Type} (l : List α) {e : ℤ} (he : 0 ≤ e) :
    jsSliceTo l e = l.take e.toNat := by
  unfold jsSliceTo
  rw [if_neg (by omega)]

theorem length_jsSliceTo_of_nonneg {α : Type} (l : List α) {e : ℤ}
    (he : 0 ≤ e) : (jsSliceTo l e).length = min e.toNat l.length := by
  rw [jsSliceTo_of_nonneg l he, List.length_take]

theorem jsSliceTo_sublist {α : Type} (l : List α) (e : ℤ) :
    (jsSliceTo l e).Sublist l := by
  unfold jsSliceTo
  split <;> exact List.take_sublist _ _

theorem pairwise_jsSliceTo {α : Type} (key : α → ℚ) (l : List α) (e : ℤ) :
    List.Pairwise (fun a b => key b ≤ key a)
      (jsSliceTo (sortDesc key l) e) :=
  List.Pairwise.sublist (jsSliceTo_sublist _ _) (sorted_sortDesc key l)

theorem getElem_enum_map {α β : Type} (f : ℕ × α → β) (l : List α) (i : ℕ)
    (hi : i < (l.enum.map f).length) (hl : i < l.length) :
    (l.enum.map f)[i] = f (i, l[i]) := by
  rw [List.getElem_map, List.getElem_enum]

theorem length_enum_map {α β : Type} (f : ℕ × α → β) (l : List α) :
    (l.enum.map f).length = l.length := by
  simp

/-! ## Helper lemmas: keyword scoring. -/

theorem jaccard_left_nil (b : List ℤ) : jaccard_index [] b = 0 := by
  simp [jaccard_index, dedupFirst]

theorem jaccard_right_nil (a : List ℤ) : jaccard_index a [] = 0 := by
  simp [jaccard_index, dedupFirst]

theorem keywordCandidates_mem {query : String} {metadata : List VectorMetadata}
    {p : ℕ × ℚ} :
    p ∈ keywordCandidates query metadata ↔
      ∃ m, metadata[p.1]? = some m ∧
        p.2 = jaccard_index (tokenize query) (tokenize m.text) ∧ 0 < p.2 := by
  unfold keywordCandidates
  rw [List.mem_filterMap]
  constructor
  · rintro ⟨⟨i, m⟩, hmem, hf⟩
    obtain ⟨hi, hm⟩ := List.mem_enum hmem
    rw [hm] at hf
    simp only at hf
    split at hf
    · exact absurd hf (by simp)
    · split at hf
      · next hpos =>
        obtain rfl : (i, jaccard_index (tokenize query)
            (tokenize (metadata[i]).text)) = p := by simpa using hf
        exact ⟨metadata[i], List.getElem?_eq_getElem hi, rfl, hpos⟩
      · exact absurd hf (by simp)
  · rintro ⟨m, hm, hscore, hpos⟩
    rcases List.getElem?_eq_some.mp hm with ⟨hlt, rfl⟩
    refine ⟨(p.1, metadata[p.1]), ?_, ?_⟩
    · have := List.getElem_mem (l := metadata.enum) (n := p.1)
        (by simpa using hlt)
      rwa [List.getElem_enum] at this
    · simp only
      have htok : ¬ (tokenize (metadata[p.1]).text).length = 0 := by
        intro h0
        rw [List.length_eq_zero.mp h0] at hscore
        rw [jaccard_right_nil] at hscore
        exact absurd (hscore ▸ hpos) (lt_irrefl 0)
      rw [if_neg htok, if_pos (hscore ▸ hpos)]
      rw [← hscore]

theorem keywordCandidates_idx_lt {query : String}
    {metadata : List VectorMetadata} {p : ℕ × ℚ}
    (h : p ∈ keywordCandidates query metadata) : p.1 < metadata.length := by
  rcases keywordCandidates_mem.mp h with ⟨m, hm, -⟩
  exact (List.getElem?_eq_some.mp hm).1

theorem keywordCandidates_nil_query {query : String}
    {metadata : List VectorMetadata} (hq : tokenize query = []) :
    keywordCandidates query metadata = [] := by
  unfold keywordCandidates
  rw [List.filterMap_eq_nil_iff]
  intro a _
  simp only
  split
  · rfl
  · rw [if_neg]
    rw [hq, jaccard_left_nil]
    exact lt_irrefl 0

theorem keywordSearch_length {query : String} {topK : ℤ}
    {metadata : List VectorMetadata} (hk : 0 ≤ topK) :
    (keywordSearch query topK metadata).length =
      min topK.toNat (keywordCandidates query metadata).length := by
  unfold keywordSearch
  split
  · next hq =>
    rw [keywordCandidates_nil_query (List.length_eq_zero.mp hq)]
    simp
  · rw [length_enum_map, length_jsSliceTo_of_nonneg _ hk, length_sortDesc]

theorem keywordSearch_mem {query : String} {topK : ℤ}
    {metadata : List VectorMetadata} {r : SearchResult}
    (h : r ∈ keywordSearch query topK metadata) :
    ∃ p ∈ keywordCandidates query metadata, ∃ i,
      r = mkResult query (metadata.getD p.1 default) p.2 none (some p.2)
        (i + 1) := by
  unfold keywordSearch at h
  split at h
  · exact absurd h (by simp)
  · rcases List.mem_map.mp h with ⟨⟨i, p⟩, hmem, hr⟩
    obtain ⟨hi, hm⟩ := List.mem_enum hmem
    refine ⟨p, ?_, i, hr.symm⟩
    rw [hm]
    exact mem_sortDesc.mp ((jsSliceTo_sublist _ _).mem (List.getElem_mem _))

theorem keywordSearch_nil {query : String} {topK : ℤ} :
    keywordSearch query topK [] = [] := by
  unfold keywordSearch
  split
  · rfl
  · simp [keywordCandidates, sortDesc, jsSliceTo]

/-! ## Helper lemmas: semantic mode. -/

theorem semanticSearch_ok {sim : List ℚ → List ℚ → ℚ} {q : String}
    {qv : List ℚ} {topK : ℤ} {md : List VectorMetadata} {vecs : List ℚ}
    {dim : ℕ} {rs : List SearchResult}
    (h : semanticSearch sim q qv topK md vecs dim = Except.ok rs) :
    ∃ rankings,
      cosine_similarity_dataspace sim vecs md.length dim qv =
        Except.ok rankings ∧
      rs = ((rankings.take (min topK (rankings.length : ℤ)).toNat).enum).map
        (fun p => mkResult q (md.getD p.2.2 default) p.2.1 (some p.2.1) none
          (p.1 + 1)) := by
  unfold semanticSearch at h
  split at h
  · exact absurd h (by simp)
  · next rankings hk =>
    exact ⟨rankings, hk, by simpa using h.symm⟩

/-! ## Helper lemmas: hybrid mode. -/

theorem semanticPairs_keys (rankings : List (ℚ × ℕ)) :
    (semanticPairs rankings).map (fun p => p.1) =
      rankings.map (fun p => p.2) := by
  simp [semanticPairs, List.map_map]

theorem hybridKeywordScored_keys (q : String) (md : List VectorMetadata) :
    (hybridKeywordScored q md).map (fun p => p.1) =
      List.range md.length := by
  unfold hybridKeywordScored
  rw [List.map_map]
  rw [show ((fun p : ℕ × ℚ => p.1) ∘ (fun p : ℕ × VectorMetadata =>
    let chunkTokens := tokenize p.2.text
    if chunkTokens.length = 0 ∨ (tokenize q).length = 0 then (p.1, (0 : ℚ))
    else (p.1, jaccard_index (tokenize q) chunkTokens))) =
    (fun p : ℕ × VectorMetadata => p.1) from ?_]
  · exact List.enum_map_fst md
  · funext p
    simp only [Function.comp_apply]
    split <;> rfl

theorem keywordSortedOf_keys_perm (q : String) (md : List VectorMetadata) :
    ((keywordSortedOf q md).map (fun p => p.1)).Perm
      (List.range md.length) := by
  unfold keywordSortedOf
  have := (perm_sortDesc (fun p : ℕ × ℚ => p.2)
    (hybridKeywordScored q md)).map (fun p : ℕ × ℚ => p.1)
  rwa [hybridKeywordScored_keys] at this

theorem mem_enum_of_mem {α : Type} {a : α} {l : List α} (h : a ∈ l) :
    ∃ i, (i, a) ∈ l.enum := by
  rcases List.mem_iff_getElem.mp h with ⟨i, hi, rfl⟩
  refine ⟨i, ?_⟩
  have := List.getElem_mem (l := l.enum) (n := i) (by simpa using hi)
  rwa [List.getElem_enum] at this

theorem mapGet_rankMapOf_isSome {pairs : List (ℕ × ℚ)} {k : ℕ}
    (hnd : (pairs.map (fun p => p.1)).Nodup)
    (hk : k ∈ pairs.map (fun p => p.1)) :
    ∃ r, mapGet (rankMapOf pairs) k = some r := by
  rw [rankMapOf_eq pairs hnd]
  rw [show (fun q : ℕ × ℕ × ℚ => (q.2.1, (q.1 : ℚ) + 1)) =
    (fun q : ℕ × ℕ × ℚ => ((fun q2 : ℕ × ℕ × ℚ => q2.2.1) q,
      (fun q2 : ℕ × ℕ × ℚ => ((q2.1 : ℚ) + 1)) q)) from rfl]
  rw [mapGet_map]
  rcases List.mem_map.mp hk with ⟨p, hp, rfl⟩
  rcases mem_enum_of_mem hp with ⟨i, hi⟩
  have hfind : ((pairs.enum).find? (fun a => a.2.1 = p.1)).isSome := by
    rw [List.find?_isSome]
    exact ⟨(i, p), hi, by simp⟩
  rcases Option.isSome_iff_exists.mp hfind with ⟨a, ha⟩
  exact ⟨(a.1 : ℚ) + 1, by rw [ha]; rfl⟩

theorem mapKeys_rankMapOf {pairs : List (ℕ × ℚ)}
    (hnd : (pairs.map (fun p => p.1)).Nodup) :
    mapKeys (rankMapOf pairs) = pairs.map (fun p => p.1) := by
  rw [rankMapOf_eq pairs hnd]
  rw [show (fun q : ℕ × ℕ × ℚ => (q.2.1, (q.1 : ℚ) + 1)) =
    (fun q : ℕ × ℕ × ℚ => ((fun q2 : ℕ × ℕ × ℚ => q2.2.1) q,
      (fun q2 : ℕ × ℕ × ℚ => ((q2.1 : ℚ) + 1)) q)) from rfl]
  rw [mapKeys_map]
  rw [show (fun q : ℕ × ℕ × ℚ => q.2.1) =
    (fun p : ℕ × ℚ => p.1) ∘ Prod.snd from rfl]
  rw [← List.map_map, List.enum_map_snd]

theorem hybridCandidates_spec {q : String} {md : List VectorMetadata}
    {rankings : List (ℚ × ℕ)}
    (hperm : (rankings.map (fun p => p.2)).Perm (List.range md.length)) :
    (hybridCandidates q md rankings).length = md.length ∧
    ∀ c ∈ hybridCandidates q md rankings, c.idx < md.length ∧
      ∃ sr kr,
        mapGet (rankMapOf (semanticPairs rankings)) c.idx = some sr ∧
        mapGet (rankMapOf (keywordSortedOf q md)) c.idx = some kr ∧
        c.rrfScore = 1 / (60 + sr) + 1 / (60 + kr) := by
  have hsemKeys := semanticPairs_keys rankings
  have hsemNodup : ((semanticPairs rankings).map (fun p => p.1)).Nodup := by
    rw [hsemKeys]
    exact hperm.nodup_iff.mpr (List.nodup_range _)
  have hkwPerm := keywordSortedOf_keys_perm q md
  have hkwNodup : ((keywordSortedOf q md).map (fun p => p.1)).Nodup :=
    hkwPerm.nodup_iff.mpr (List.nodup_range _)
  have hdedup : dedupFirst (mapKeys (rankMapOf (semanticPairs rankings)) ++
      mapKeys (rankMapOf (keywordSortedOf q md))) =
      (semanticPairs rankings).map (fun p => p.1) := by
    rw [mapKeys_rankMapOf hsemNodup, mapKeys_rankMapOf hkwNodup]
    refine dedupFirst_append hsemNodup ?_
    intro b hb
    rw [hsemKeys]
    exact hperm.mem_iff.mpr (hkwPerm.mem_iff.mp hb)
  have hcand : hybridCandidates q md rankings =
      ((semanticPairs rankings).map (fun p => p.1)).map (fun i =>
        { idx := i
          semanticScore :=
            (mapGet (scoreMapOf (semanticPairs rankings)) i).getD 0
          keywordScore :=
            (mapGet (scoreMapOf (keywordSortedOf q md)) i).getD 0
          rrfScore :=
            rrfContribution (mapGet (rankMapOf (semanticPairs rankings)) i) 60 +
            rrfContribution (mapGet (rankMapOf (keywordSortedOf q md)) i) 60 :
          ScoredCandidate }) := by
    simp only [hybridCandidates]
    rw [reciprocalRankFusion_eq, hdedup, List.map_map]
    rfl
  constructor
  · rw [hcand]
    have hlen : rankings.length = md.length := by
      have := hperm.length_eq
      simpa using this
    simp [semanticPairs, hlen]
  · intro c hc
    rw [hcand] at hc
    rcases List.mem_map.mp hc with ⟨i, hi, rfl⟩
    have hiRange : i ∈ List.range md.length := by
      rw [hsemKeys] at hi
      exact hperm.mem_iff.mp hi
    refine ⟨List.mem_range.mp hiRange, ?_⟩
    rcases mapGet_rankMapOf_isSome hsemNodup hi with ⟨sr, hsr⟩
    rcases mapGet_rankMapOf_isSome hkwNodup
      (hkwPerm.mem_iff.mpr hiRange) with ⟨kr, hkr⟩
    refine ⟨sr, kr, hsr, hkr, ?_⟩
    simp only [hsr, hkr]
    rfl

theorem hybridSearch_ok {sim : List ℚ → List ℚ → ℚ} {q : String}
    {qv : List ℚ} {topK : ℤ} {md : List VectorMetadata} {vecs : List ℚ}
    {dim : ℕ} {rs : List SearchResult}
    (h : hybridSearch sim q qv topK md vecs dim = Except.ok rs) :
    ∃ rankings,
      cosine_similarity_dataspace sim vecs md.length dim qv =
        Except.ok rankings ∧
      rs = hybridFromRankings q topK md rankings := by
  unfold hybridSearch at h
  split at h
  · exact absurd h (by simp)
  · next rankings hk =>
    exact ⟨rankings, hk, by simpa using h.symm⟩

/-! ## Helper lemmas: search dispatch. -/

theorem search_keyword_eq (sim : List ℚ → List ℚ → ℚ)
    (embed : String → List ℚ) (store : Store) (q : String) (k : ℤ)
    (did : Option String) :
    search sim embed store q k did SearchMode.keyword =
      Except.ok (keywordSearch q k (buildIndex (scopedDocs store did)).1) := by
  simp only [search, searchCounted]
  split
  · next h =>
    rw [List.length_eq_zero.mp h, keywordSearch_nil]
  · rfl

theorem search_semantic_ok {sim : List ℚ → List ℚ → ℚ}
    {embed : String → List ℚ} {store : Store} {q : String} {k : ℤ}
    {did : Option String} {rs : List SearchResult}
    (h : search sim embed store q k did SearchMode.semantic = Except.ok rs) :
    ((buildIndex (scopedDocs store did)).1 = [] ∧ rs = []) ∨
      semanticSearch sim q (embed q) k (buildIndex (scopedDocs store did)).1
        (buildIndex (scopedDocs store did)).2.1
        (buildIndex (scopedDocs store did)).2.2 = Except.ok rs := by
  simp only [search, searchCounted] at h
  split at h
  · next hc =>
    exact Or.inl ⟨List.length_eq_zero.mp hc, by simpa using h.symm⟩
  · exact Or.inr h

theorem search_hybrid_ok {sim : List ℚ → List ℚ → ℚ}
    {embed : String → List ℚ} {store : Store} {q : String} {k : ℤ}
    {did : Option String} {rs : List SearchResult}
    (h : search sim embed store q k did SearchMode.hybrid = Except.ok rs) :
    ((buildIndex (scopedDocs store did)).1 = [] ∧ rs = []) ∨
      hybridSearch sim q (embed q) k (buildIndex (scopedDocs store did)).1
        (buildIndex (scopedDocs store did)).2.1
        (buildIndex (scopedDocs store did)).2.2 = Except.ok rs := by
  simp only [search, searchCounted] at h
  split at h
  · next hc =>
    exact Or.inl ⟨List.length_eq_zero.mp hc, by simpa using h.symm⟩
  · exact Or.inr h

/-! ## Helper lemmas: the index builder. -/

theorem chunkIdToIndex_some {chunks : List TextChunk} {id : String} {i : ℕ}
    (h : chunkIdToIndex chunks id = some i) :
    i < chunks.length ∧ (chunks.getD i emptyChunk).id = id := by
  have hmem := getLast?_mem h
  rcases List.mem_map.mp hmem with ⟨p, hp, rfl⟩
  rcases List.mem_filter.mp hp with ⟨henum, hid⟩
  obtain ⟨hlt, hm⟩ := List.mem_enum henum
  refine ⟨hlt, ?_⟩
  rw [List.getD_eq_getElem chunks emptyChunk hlt, ← hm]
  exact of_decide_eq_true hid

theorem chunkIdToIndex_isSome_iff {chunks : List TextChunk} {id : String} :
    (chunkIdToIndex chunks id).isSome = true ↔
      chunks.any (fun c => c.id = id) = true := by
  unfold chunkIdToIndex
  rw [List.getLast?_isSome, List.any_eq_true]
  constructor
  · intro h
    have hne : (chunks.enum.filter (fun p => p.2.id = id)) ≠ [] := by
      intro hnil
      exact h (by rw [hnil]; rfl)
    rcases List.exists_mem_of_ne_nil _ hne with ⟨p, hp⟩
    rcases List.mem_filter.mp hp with ⟨henum, hid⟩
    obtain ⟨hlt, hm⟩ := List.mem_enum henum
    exact ⟨p.2, hm ▸ List.getElem_mem hlt, hid⟩
  · rintro ⟨c, hc, hid⟩ hnil
    rcases mem_enum_of_mem hc with ⟨i, hi⟩
    have hmemf : (i, c) ∈ chunks.enum.filter (fun p => p.2.id = id) :=
      List.mem_filter.mpr ⟨hi, hid⟩
    rw [List.map_eq_nil_iff.mp hnil] at hmemf
    exact List.not_mem_nil _ hmemf

theorem metaForRecord_some {d : String} {dd : DocumentData}
    {vr : VectorRecord} {m : VectorMetadata}
    (h : metaForRecord d dd vr = some m) :
    m.docId = d ∧ m.docTitle = dd.title ∧ m.chunkId = vr.id ∧
    m.chunkIndex < dd.textChunks.length ∧
    m.totalChunks = dd.textChunks.length ∧
    (dd.textChunks.getD m.chunkIndex emptyChunk).id = vr.id ∧
    m.prevChunkId = (if 0 < m.chunkIndex then
      some ((dd.textChunks.getD (m.chunkIndex - 1) emptyChunk).id)
      else none) ∧
    m.nextChunkId = (if m.chunkIndex < dd.textChunks.length - 1 then
      some ((dd.textChunks.getD (m.chunkIndex + 1) emptyChunk).id)
      else none) := by
  unfold metaForRecord at h
  rcases Option.map_eq_some'.mp h with ⟨ci, hci, rfl⟩
  obtain ⟨hlt, hid⟩ := chunkIdToIndex_some hci
  exact ⟨rfl, rfl, rfl, hlt, rfl, hid, rfl, rfl⟩

theorem mem_buildIndex_metadata {docs : List (String × DocumentData)}
    {m : VectorMetadata} :
    m ∈ (buildIndex docs).1 ↔
      ∃ p ∈ docs, ∃ vr ∈ p.2.vectorRecords,
        metaForRecord p.1 p.2 vr = some m := by
  unfold buildIndex
  simp only [List.mem_map, List.mem_flatMap]
  constructor
  · rintro ⟨e, ⟨p, hp, he⟩, rfl⟩
    unfold buildDoc at he
    rcases List.mem_filterMap.mp he with ⟨vr, hvr, hf⟩
    rcases Option.map_eq_some'.mp hf with ⟨m0, hm0, he2⟩
    refine ⟨p, hp, vr, hvr, ?_⟩
    rw [hm0]
    rw [show m0 = e.1 from by rw [← he2]]
  · rintro ⟨p, hp, vr, hvr, hm⟩
    refine ⟨(m, vr.vector), ⟨p, hp, ?_⟩, rfl⟩
    unfold buildDoc
    exact List.mem_filterMap.mpr ⟨vr, hvr, by rw [hm]; rfl⟩

theorem length_filterMap_eq {α β : Type} (f : α → Option β) :
    ∀ l : List α,
      (l.filterMap f).length = (l.filter (fun a => (f a).isSome)).length
  | [] => rfl
  | a :: l => by
    rcases hfa : f a with - | b
    · simp [List.filterMap_cons, List.filter_cons, hfa, length_filterMap_eq f l]
    · simp [List.filterMap_cons, List.filter_cons, hfa, length_filterMap_eq f l]

theorem buildIndex_metadata_count (docs : List (String × DocumentData)) :
    (buildIndex docs).1.length =
      (docs.map (fun p => (p.2.vectorRecords.filter (fun vr =>
        p.2.textChunks.any (fun c => c.id = vr.id))).length)).sum := by
  unfold buildIndex
  simp only [List.length_map, List.length_flatMap]
  congr 1
  refine List.map_congr_left (fun p _ => ?_)
  simp only [Function.comp_apply]
  unfold buildDoc
  rw [length_filterMap_eq]
  congr 1
  refine List.filter_congr (fun vr _ => ?_)
  rw [show ((metaForRecord p.1 p.2 vr).map
    (fun m => (m, vr.vector))).isSome = (metaForRecord p.1 p.2 vr).isSome from
    by rcases metaForRecord p.1 p.2 vr with - | m <;> rfl]
  rw [show (metaForRecord p.1 p.2 vr).isSome =
    (chunkIdToIndex p.2.textChunks vr.id).isSome from by
    unfold metaForRecord
    rcases chunkIdToIndex p.2.textChunks vr.id with - | ci <;> rfl]
  rw [Bool.eq_iff_iff]
  exact chunkIdToIndex_isSome_iff

/-! ## Helper lemmas: shared result assembly. -/

theorem mkResult_metaFields (q : String) (m : VectorMetadata) (s : ℚ)
    (o1 o2 : Option ℚ) (rk : ℕ) : MetaFields (mkResult q m s o1 o2 rk) m := by
  refine ⟨rfl, rfl, rfl, rfl, rfl, rfl, rfl⟩

theorem resultMap_sorted_ranks {α : Type} (q : String)
    (g : α → VectorMetadata) (s : α → ℚ) (o1 o2 : α → Option ℚ)
    (slice : List α)
    (hsorted : List.Pairwise (fun a b => s b ≤ s a) slice) :
    (∀ i j (hi : i < (slice.enum.map (fun p => mkResult q (g p.2) (s p.2)
        (o1 p.2) (o2 p.2) (p.1 + 1))).length)
      (hj : j < (slice.enum.map (fun p => mkResult q (g p.2) (s p.2)
        (o1 p.2) (o2 p.2) (p.1 + 1))).length), i < j →
      ((slice.enum.map (fun p => mkResult q (g p.2) (s p.2) (o1 p.2) (o2 p.2)
        (p.1 + 1)))[j]).similarity ≤
      ((slice.enum.map (fun p => mkResult q (g p.2) (s p.2) (o1 p.2) (o2 p.2)
        (p.1 + 1)))[i]).similarity) ∧
    (∀ i (hi : i < (slice.enum.map (fun p => mkResult q (g p.2) (s p.2)
        (o1 p.2) (o2 p.2) (p.1 + 1))).length),
      ((slice.enum.map (fun p => mkResult q (g p.2) (s p.2) (o1 p.2) (o2 p.2)
        (p.1 + 1)))[i]).rank = i + 1) := by
  constructor
  · intro i j hi hj hij
    have hi2 : i < slice.length := by simpa using hi
    have hj2 : j < slice.length := by simpa using hj
    rw [getElem_enum_map _ slice i hi hi2, getElem_enum_map _ slice j hj hj2]
    have := List.pairwise_iff_getElem.mp hsorted i j hi2 hj2 hij
    simpa [mkResult] using this
  · intro i hi
    have hi2 : i < slice.length := by simpa using hi
    rw [getElem_enum_map _ slice i hi hi2]
    rfl

theorem search_result_meta {sim : List ℚ → List ℚ → ℚ}
    {embed : String → List ℚ} {store : Store} {q : String} {k : ℤ}
    {did : Option String} {mode : SearchMode} {rs : List SearchResult}
    {r : SearchResult}
    (hok : search sim embed store q k did mode = Except.ok rs)
    (hr : r ∈ rs) :
    ∃ m ∈ (buildIndex (scopedDocs store did)).1, MetaFields r m := by
  cases mode with
  | keyword =>
    rw [search_keyword_eq sim embed store q k did] at hok
    obtain rfl : keywordSearch q k (buildIndex (scopedDocs store did)).1 = rs :=
      by simpa using hok
    rcases keywordSearch_mem hr with ⟨p, hp, i, rfl⟩
    have hlt := keywordCandidates_idx_lt hp
    rw [List.getD_eq_getElem _ _ hlt]
    exact ⟨_, List.getElem_mem hlt, mkResult_metaFields _ _ _ _ _ _⟩
  | semantic =>
    rcases search_semantic_ok hok with ⟨-, rfl⟩ | hsem
    · exact absurd hr (List.not_mem_nil r)
    · rcases semanticSearch_ok hsem with ⟨rankings, hk2, rfl⟩
      rcases List.mem_map.mp hr with ⟨⟨i, p⟩, hmem, hfr⟩
      obtain ⟨hi, hm⟩ := List.mem_enum hmem
      have hpr : p ∈ rankings := by
        rw [hm]
        exact (List.take_sublist _ _).mem (List.getElem_mem _)
      have hlt := dataspace_ok_idx_lt hk2 hpr
      rw [← hfr, List.getD_eq_getElem _ _ hlt]
      exact ⟨_, List.getElem_mem hlt, mkResult_metaFields _ _ _ _ _ _⟩
  | hybrid =>
    rcases search_hybrid_ok hok with ⟨-, rfl⟩ | hhyb
    · exact absurd hr (List.not_mem_nil r)
    · rcases hybridSearch_ok hhyb with ⟨rankings, hk2, rfl⟩
      unfold hybridFromRankings at hr
      rcases List.mem_map.mp hr with ⟨⟨i, c⟩, hmem, hfr⟩
      obtain ⟨hi, hm⟩ := List.mem_enum hmem
      have hcc : c ∈ hybridCandidates q (buildIndex (scopedDocs store did)).1
          rankings := by
        rw [hm]
        exact mem_sortDesc.mp ((jsSliceTo_sublist _ _).mem (List.getElem_mem _))
      have hperm := (dataspace_ok _ _ _ _ _ _ hk2).1
      have hlt := ((hybridCandidates_spec hperm).2 c hcc).1
      rw [← hfr, List.getD_eq_getElem _ _ hlt]
      exact ⟨_, List.getElem_mem hlt, mkResult_metaFields _ _ _ _ _ _⟩

/-! ## Claim theorems. -/

/-- Claim C7: a search call leaves the document store exactly as it
found it, and the embedding capability is invoked exactly once in
semantic and hybrid mode on a nonempty index, and never in keyword mode
or on an empty index. -/
theorem c7_search_effects (sim : List ℚ → List ℚ → ℚ)
    (embed : String → List ℚ) (store : Store) (query : String) (topK : ℤ)
    (documentId : Option String) (mode : SearchMode) :
    (searchCounted sim embed store query topK documentId mode).2.1 = store ∧
    (searchCounted sim embed store query topK documentId mode).2.2 =
      (if (buildIndex (scopedDocs store documentId)).1.length = 0 ∨
          mode = SearchMode.keyword then 0 else 1) ∧
    (mode = SearchMode.keyword →
      (searchCounted sim embed store query topK documentId mode).2.2 = 0) ∧
    (searchCounted sim embed store query topK documentId mode).2.2 ≤ 1 := by
  simp only [searchCounted]
  split
  · next h =>
    exact ⟨rfl, by rw [if_pos (Or.inl h)], fun _ => rfl, by norm_num⟩
  · next h =>
    cases mode with
    | keyword =>
      exact ⟨rfl, by rw [if_pos (Or.inr rfl)], fun _ => rfl, by norm_num⟩
    | semantic =>
      refine ⟨rfl, ?_, ?_, ?_⟩
      · rw [if_neg]
        rintro (hc | hc)
        · exact h hc
        · cases hc
      · intro hc
        cases hc
      · norm_num
    | hybrid =>
      refine ⟨rfl, ?_, ?_, ?_⟩
      · rw [if_neg]
        rintro (hc | hc)
        · exact h hc
        · cases hc
      · intro hc
        cases hc
      · norm_num

theorem c7_search_effects_witness :
    (searchCounted simExample embedExample exampleStore "fox" 5 none
      SearchMode.keyword).2.1 = exampleStore ∧
    (searchCounted simExample embedExample exampleStore "fox" 5 none
      SearchMode.keyword).2.2 = 0 := by
  have h := c7_search_effects simExample embedExample exampleStore "fox" 5
    none SearchMode.keyword
  exact ⟨h.1, h.2.2.1 rfl⟩

/-- Claim C8: a vector record whose id matches no text chunk is
excluded from the built index without an error (every built entry
resolves to a real chunk of its document), and all matching records of
the document still participate: the index size is exactly the number of
records whose id resolves to a chunk. -/
theorem c8_malformed_records_omitted (docs : List (String × DocumentData)) :
    (∀ m ∈ (buildIndex docs).1, ∃ p ∈ docs, ∃ c ∈ p.2.textChunks,
      m.docId = p.1 ∧ m.chunkId = c.id) ∧
    (buildIndex docs).1.length =
      (docs.map (fun p => (p.2.vectorRecords.filter (fun vr =>
        p.2.textChunks.any (fun c => c.id = vr.id))).length)).sum := by
  constructor
  · intro m hm
    rcases mem_buildIndex_metadata.mp hm with ⟨p, hp, vr, hvr, hmeta⟩
    obtain ⟨hdoc, -, hcid, hlt, -, hid, -, -⟩ := metaForRecord_some hmeta
    refine ⟨p, hp, p.2.textChunks.getD m.chunkIndex emptyChunk, ?_, hdoc, ?_⟩
    · rw [List.getD_eq_getElem _ _ hlt]
      exact List.getElem_mem hlt
    · rw [hid, hcid]
  · exact buildIndex_metadata_count docs

theorem c8_malformed_records_omitted_witness :
    (buildIndex [("d", danglingDoc)]).1.length =
      ([("d", danglingDoc)].map (fun p => (p.2.vectorRecords.filter (fun vr =>
        p.2.textChunks.any (fun c => c.id = vr.id))).length)).sum ∧
    (buildIndex [("d", danglingDoc)]).1.length = 1 ∧
    danglingDoc.vectorRecords.length = 2 := by
  refine ⟨(c8_malformed_records_omitted [("d", danglingDoc)]).2, ?_, ?_⟩
  · with_unfolding_all decide
  · decide

/-- Claim C4: the keyword candidate set is exactly the indexed entries
with strictly positive Jaccard score against the query token set, so
every keyword result has positive similarity, and a query that
tokenizes to nothing yields an empty result sequence. -/
theorem c4_keyword_positive (query : String) (topK : ℤ)
    (metadata : List VectorMetadata) :
    (∀ p : ℕ × ℚ, p ∈ keywordCandidates query metadata ↔
      ∃ m, metadata[p.1]? = some m ∧
        p.2 = jaccard_index (tokenize query) (tokenize m.text) ∧ 0 < p.2) ∧
    (∀ r ∈ keywordSearch query topK metadata, 0 < r.similarity) ∧
    (tokenize query = [] → keywordSearch query topK metadata = []) := by
  refine ⟨fun p => keywordCandidates_mem, ?_, ?_⟩
  · intro r hr
    rcases keywordSearch_mem hr with ⟨p, hp, i, rfl⟩
    rcases keywordCandidates_mem.mp hp with ⟨m, -, -, hpos⟩
    exact hpos
  · intro hq
    unfold keywordSearch
    rw [if_pos (by rw [hq]; rfl)]

theorem c4_keyword_positive_witness :
    tokenize "" = [] ∧ keywordSearch "" 5 exampleMetadata = [] := by
  refine ⟨by decide, ?_⟩
  exact (c4_keyword_positive "" 5 exampleMetadata).2.2 (by decide)

/-- Claim C1 (amended): for nonnegative topK every mode returns exactly
min(topK, matchingCandidates) results, hence at most topK and none when
topK = 0; for negative topK semantic mode returns an empty sequence,
but keyword and hybrid mode follow the JS slice semantics and may
return results (see the counterexample). -/
theorem c1_topk_cutoff {sim : List ℚ → List ℚ → ℚ}
    {embed : String → List ℚ} {store : Store} {query : String} {topK : ℤ}
    {documentId : Option String} {mode : SearchMode} {rs : List SearchResult}
    (hok : search sim embed store query topK documentId mode =
      Except.ok rs) :
    (0 ≤ topK → rs.length = min topK.toNat
      (matchingCandidates query mode
        (buildIndex (scopedDocs store documentId)).1)) ∧
    (mode = SearchMode.semantic → topK < 0 → rs = []) := by
  cases mode with
  | keyword =>
    rw [search_keyword_eq sim embed store query topK documentId] at hok
    obtain rfl : keywordSearch query topK
        (buildIndex (scopedDocs store documentId)).1 = rs := by
      simpa using hok
    refine ⟨fun hk => ?_, fun hc => by cases hc⟩
    rw [keywordSearch_length hk]
    rfl
  | semantic =>
    constructor
    · intro hk
      rcases search_semantic_ok hok with ⟨hmd, rfl⟩ | hsem
      · simp [matchingCandidates, hmd]
      · rcases semanticSearch_ok hsem with ⟨rankings, hker, rfl⟩
        have hlen := dataspace_ok_length hker
        simp only [length_enum_map, List.length_take, matchingCandidates]
        omega
    · intro _hc hneg
      rcases search_semantic_ok hok with ⟨-, rfl⟩ | hsem
      · rfl
      · rcases semanticSearch_ok hsem with ⟨rankings, -, rfl⟩
        rw [show (min topK (rankings.length : ℤ)).toNat = 0 from by omega]
        rfl
  | hybrid =>
    refine ⟨fun hk => ?_, fun hc => by cases hc⟩
    rcases search_hybrid_ok hok with ⟨hmd, rfl⟩ | hhyb
    · simp [matchingCandidates, hmd]
    · rcases hybridSearch_ok hhyb with ⟨rankings, hker, rfl⟩
      have hperm := (dataspace_ok _ _ _ _ _ _ hker).1
      have hcl := (hybridCandidates_spec (q := query) hperm).1
      unfold hybridFromRankings
      simp only [length_enum_map]
      rw [length_jsSliceTo_of_nonneg _ hk, length_sortDesc, hcl]
      rfl

/-- Claim C1 counterexample: with topK = -1 in keyword mode, two
matching candidates produce one result, not an empty sequence (the JS
slice end index counts from the end of the array), refuting the claim
that any topK at most 0 yields an empty result sequence. -/
theorem c1_counterexample :
    (search simExample embedExample exampleStore "fox" (-1) none
      SearchMode.keyword).map List.length = Except.ok 1 ∧
    (-1 : ℤ) ≤ 0 := by
  constructor
  · with_unfolding_all decide
  · decide

theorem c1_topk_cutoff_witness :
    c1rs.length = min ((1 : ℤ)).toNat (matchingCandidates "fox"
      SearchMode.keyword (buildIndex (scopedDocs exampleStore none)).1) := by
  have hok : search simExample embedExample exampleStore "fox" 1 none
      SearchMode.keyword = Except.ok c1rs := by
    with_unfolding_all decide
  exact (c1_topk_cutoff hok).1 (by decide)

/-- Claim C3 (amended): whenever the scoped document set yields zero
index entries — the supplied documentId is nonempty and unknown (an
empty-string id is falsy in JS and scopes to all documents), or the
collection is empty, or no record resolves — search returns the empty
sequence and no error. -/
theorem c3_empty_scope :
    (∀ (sim : List ℚ → List ℚ → ℚ) (embed : String → List ℚ)
      (store : Store) (query : String) (topK : ℤ)
      (documentId : Option String) (mode : SearchMode),
      (buildIndex (scopedDocs store documentId)).1 = [] →
      search sim embed store query topK documentId mode = Except.ok []) ∧
    (∀ (sim : List ℚ → List ℚ → ℚ) (embed : String → List ℚ)
      (store : Store) (query : String) (topK : ℤ) (d : String)
      (mode : SearchMode), d ≠ "" → store.find d = none →
      search sim embed store query topK (some d) mode = Except.ok []) ∧
    (∀ (sim : List ℚ → List ℚ → ℚ) (embed : String → List ℚ)
      (store : Store) (query : String) (topK : ℤ)
      (documentId : Option String) (mode : SearchMode), store.docs = [] →
      search sim embed store query topK documentId mode = Except.ok []) := by
  have h1 : ∀ (sim : List ℚ → List ℚ → ℚ) (embed : String → List ℚ)
      (store : Store) (query : String) (topK : ℤ)
      (documentId : Option String) (mode : SearchMode),
      (buildIndex (scopedDocs store documentId)).1 = [] →
      search sim embed store query topK documentId mode = Except.ok [] := by
    intro sim embed store query topK documentId mode hmd
    simp only [search, searchCounted]
    rw [if_pos (by rw [hmd]; rfl)]
  refine ⟨h1, ?_, ?_⟩
  · intro sim embed store query topK d mode hd hfind
    refine h1 sim embed store query topK (some d) mode ?_
    have hscope : scopedDocs store (some d) = [] := by
      simp only [scopedDocs]
      rw [if_neg hd, hfind]
    rw [hscope]
    rfl
  · intro sim embed store query topK documentId mode hdocs
    refine h1 sim embed store query topK documentId mode ?_
    have hscope : scopedDocs store documentId = [] := by
      cases documentId with
      | none => exact hdocs
      | some d =>
        simp only [scopedDocs]
        split
        · exact hdocs
        · rw [show store.find d = none from by
            unfold Store.find
            rw [hdocs]
            rfl]
    rw [hscope]
    rfl

/-- Claim C3 counterexample: the empty string is a supplied but unknown
documentId (find returns nothing for it), yet search scopes to all
documents and returns two results instead of none, because the JS
truthiness test treats an empty-string documentId as absent. -/
theorem c3_counterexample :
    exampleStore.find "" = none ∧
    (search simExample embedExample exampleStore "fox" 5 (some "")
      SearchMode.keyword).map List.length = Except.ok 2 := by
  constructor
  · decide
  · with_unfolding_all decide

theorem c3_empty_scope_witness :
    search simExample embedExample exampleStore "fox" 5 (some "nope")
      SearchMode.keyword = Except.ok [] := by
  refine c3_empty_scope.2.1 simExample embedExample exampleStore "fox" 5
    "nope" SearchMode.keyword (by decide) (by decide)

/-- Claim C5: in semantic and keyword mode the output is sorted by
similarity in descending order and each rank field is the 1-based
output position. -/
theorem c5_sorted_ranks {sim : List ℚ → List ℚ → ℚ}
    {embed : String → List ℚ} {store : Store} {query : String} {topK : ℤ}
    {documentId : Option String} {mode : SearchMode} {rs : List SearchResult}
    (hmode : mode = SearchMode.semantic ∨ mode = SearchMode.keyword)
    (hok : search sim embed store query topK documentId mode =
      Except.ok rs) :
    (∀ i j (hi : i < rs.length) (hj : j < rs.length), i < j →
      rs[j].similarity ≤ rs[i].similarity) ∧
    (∀ i (hi : i < rs.length), rs[i].rank = i + 1) := by
  rcases hmode with rfl | rfl
  · rcases search_semantic_ok hok with ⟨-, rfl⟩ | hsem
    · exact ⟨fun i j hi => by simp at hi, fun i hi => by simp at hi⟩
    · rcases semanticSearch_ok hsem with ⟨rankings, hker, rfl⟩
      have hsorted : List.Pairwise (fun a b : ℚ × ℕ => b.1 ≤ a.1)
          (rankings.take (min topK (rankings.length : ℤ)).toNat) :=
        List.Pairwise.sublist (List.take_sublist _ _)
          (dataspace_ok _ _ _ _ _ _ hker).2
      exact resultMap_sorted_ranks query
        (fun x : ℚ × ℕ =>
          (buildIndex (scopedDocs store documentId)).1.getD x.2 default)
        (fun x : ℚ × ℕ => x.1) (fun x => some x.1) (fun _ => none) _ hsorted
  · rw [search_keyword_eq sim embed store query topK documentId] at hok
    obtain rfl : keywordSearch query topK
        (buildIndex (scopedDocs store documentId)).1 = rs := by
      simpa using hok
    unfold keywordSearch
    split
    · exact ⟨fun i j hi => by simp at hi, fun i hi => by simp at hi⟩
    · exact resultMap_sorted_ranks query
        (fun x : ℕ × ℚ =>
          (buildIndex (scopedDocs store documentId)).1.getD x.1 default)
        (fun x : ℕ × ℚ => x.2) (fun _ => none) (fun x => some x.2) _
        (pairwise_jsSliceTo _ _ _)

theorem c5_sorted_ranks_witness :
    (c5rs.getD 0 default).rank = 1 ∧
    (c5rs.getD 1 default).similarity ≤ (c5rs.getD 0 default).similarity := by
  have hok : search simExample embedExample exampleStore "fox" 3 none
      SearchMode.semantic = Except.ok c5rs := by
    with_unfolding_all decide
  have h := c5_sorted_ranks (Or.inl rfl) hok
  have hlen : 1 < c5rs.length := by with_unfolding_all decide
  constructor
  · rw [List.getD_eq_getElem _ _ (by omega)]
    exact h.2 0 (by omega)
  · rw [List.getD_eq_getElem _ _ (by omega),
      List.getD_eq_getElem _ _ (by omega)]
    exact h.1 0 1 (by omega) (by omega) (by omega)

/-- Claim C2: every hybrid result carries both a semanticScore and a
keywordScore, and its similarity is the reciprocal-rank-fusion value
1/(60 + semanticRank) + 1/(60 + keywordRank) of its 1-based positions
in the semantic and keyword orderings; in general an index absent from
one ranking contributes 0 to the fused score. -/
theorem c2_hybrid_rrf {sim : List ℚ → List ℚ → ℚ} {q : String}
    {qv : List ℚ} {topK : ℤ} {md : List VectorMetadata} {vecs : List ℚ}
    {dim : ℕ} {rs : List SearchResult}
    (hok : hybridSearch sim q qv topK md vecs dim = Except.ok rs) :
    (∀ r ∈ rs, r.semanticScore.isSome ∧ r.keywordScore.isSome ∧
      ∃ rankings idx sr kr,
        cosine_similarity_dataspace sim vecs md.length dim qv =
          Except.ok rankings ∧
        mapGet (rankMapOf (semanticPairs rankings)) idx = some sr ∧
        mapGet (rankMapOf (keywordSortedOf q md)) idx = some kr ∧
        r.id = (md.getD idx default).chunkId ∧
        r.similarity = 1 / (60 + sr) + 1 / (60 + kr)) ∧
    (∀ (A B : List (ℕ × ℚ)) (k : ℚ) (p : ℕ × ℚ),
      p ∈ reciprocalRankFusion A B k →
      p.2 = rrfContribution (mapGet A p.1) k +
        rrfContribution (mapGet B p.1) k) := by
  constructor
  · intro r hr
    rcases hybridSearch_ok hok with ⟨rankings, hker, rfl⟩
    unfold hybridFromRankings at hr
    rcases List.mem_map.mp hr with ⟨⟨i, c⟩, hmem, hfr⟩
    obtain ⟨hi, hm⟩ := List.mem_enum hmem
    have hcc : c ∈ hybridCandidates q md rankings := by
      rw [hm]
      exact mem_sortDesc.mp ((jsSliceTo_sublist _ _).mem (List.getElem_mem _))
    have hperm := (dataspace_ok _ _ _ _ _ _ hker).1
    obtain ⟨-, sr, kr, hsr, hkr, hval⟩ :=
      (hybridCandidates_spec (q := q) hperm).2 c hcc
    rw [← hfr]
    refine ⟨rfl, rfl, rankings, c.idx, sr, kr, hker, hsr, hkr, rfl, ?_⟩
    rw [show (mkResult q (md.getD c.idx default) c.rrfScore
      (some c.semanticScore) (some c.keywordScore) (i + 1)).similarity =
      c.rrfScore from rfl]
    exact hval
  · intro A B k p hp
    rw [reciprocalRankFusion_eq] at hp
    rcases List.mem_map.mp hp with ⟨idx, -, rfl⟩
    rfl

set_option maxRecDepth 4000 in
theorem c2_hybrid_rrf_witness :
    (c2rs.getD 0 default).semanticScore.isSome = true ∧
    (c2rs.getD 0 default).keywordScore.isSome = true := by
  have hok : hybridSearch simExample "fox" [1] 2 smallMetadata
      smallVectors 1 = Except.ok c2rs := by
    with_unfolding_all decide
  have hmem : c2rs.getD 0 default ∈ c2rs := by
    with_unfolding_all decide
  have h := (c2_hybrid_rrf hok).1 (c2rs.getD 0 default) hmem
  exact ⟨h.1, h.2.1⟩

/-- Claim C9: every result points back to a chunk of a scoped document,
and its neighborChunks carry the ids of the chunks immediately before
and after that chunk in the document order, each absent at the
respective boundary. -/
theorem c9_neighbor_linkage {sim : List ℚ → List ℚ → ℚ}
    {embed : String → List ℚ} {store : Store} {query : String} {topK : ℤ}
    {documentId : Option String} {mode : SearchMode} {rs : List SearchResult}
    {r : SearchResult}
    (hok : search sim embed store query topK documentId mode = Except.ok rs)
    (hr : r ∈ rs) :
    ∃ docId docData i c, (docId, docData) ∈ scopedDocs store documentId ∧
      r.documentId = docId ∧ r.chunkIndex = i ∧
      r.totalChunks = docData.textChunks.length ∧
      docData.textChunks[i]? = some c ∧ c.id = r.id ∧
      r.neighborChunks.prev = (if i = 0 then none else
        (docData.textChunks[i - 1]?).map (fun ch => ch.id)) ∧
      r.neighborChunks.next =
        (docData.textChunks[i + 1]?).map (fun ch => ch.id) := by
  obtain ⟨m, hm, hf⟩ := search_result_meta hok hr
  rcases mem_buildIndex_metadata.mp hm with ⟨p, hp, vr, hvr, hmeta⟩
  obtain ⟨hdoc, -, hcid, hlt, htot, hid, hprev, hnext⟩ :=
    metaForRecord_some hmeta
  obtain ⟨hrid, hrdoc, hrci, hrtot, -, hrprev, hrnext⟩ := hf
  refine ⟨p.1, p.2, m.chunkIndex,
    p.2.textChunks.getD m.chunkIndex emptyChunk, hp, ?_, hrci, ?_, ?_, ?_,
    ?_, ?_⟩
  · rw [hrdoc, hdoc]
  · rw [hrtot, htot]
  · rw [List.getD_eq_getElem _ _ hlt]
    exact List.getElem?_eq_getElem hlt
  · rw [hid, hrid, hcid]
  · rw [hrprev, hprev]
    rcases Nat.eq_zero_or_pos m.chunkIndex with h0 | h0
    · rw [if_neg (by omega), if_pos h0]
    · rw [if_pos h0, if_neg (by omega)]
      have hlt2 : m.chunkIndex - 1 < p.2.textChunks.length := by omega
      rw [List.getElem?_eq_getElem hlt2, List.getD_eq_getElem _ _ hlt2]
      rfl
  · rw [hrnext, hnext]
    by_cases h2 : m.chunkIndex < p.2.textChunks.length - 1
    · rw [if_pos h2]
      have hlt2 : m.chunkIndex + 1 < p.2.textChunks.length := by omega
      rw [List.getElem?_eq_getElem hlt2, List.getD_eq_getElem _ _ hlt2]
      rfl
    · rw [if_neg h2]
      rw [List.getElem?_eq_none (by omega)]
      rfl

theorem c9_neighbor_linkage_witness :
    ∃ docId docData i c, (docId, docData) ∈ scopedDocs exampleStore none ∧
      (c9rs.getD 0 default).documentId = docId ∧
      (c9rs.getD 0 default).chunkIndex = i ∧
      (c9rs.getD 0 default).totalChunks = docData.textChunks.length ∧
      docData.textChunks[i]? = some c ∧ c.id = (c9rs.getD 0 default).id ∧
      (c9rs.getD 0 default).neighborChunks.prev = (if i = 0 then none else
        (docData.textChunks[i - 1]?).map (fun ch => ch.id)) ∧
      (c9rs.getD 0 default).neighborChunks.next =
        (docData.textChunks[i + 1]?).map (fun ch => ch.id) := by
  have hok : search simExample embedExample exampleStore "fox" 3 none
      SearchMode.keyword = Except.ok c9rs := by
    with_unfolding_all decide
  have hmem : c9rs.getD 0 default ∈ c9rs := by
    with_unfolding_all decide
  exact c9_neighbor_linkage hok hmem

/-- Claim C6 (amended): a query vector whose length differs from the
recorded dimensionality makes the comparison fail with a
DimensionMismatch condition (given a uniform flat buffer and at least
one candidate); but indexed vectors of differing lengths scoped
together are not detected — the builder records the last-seen
dimensionality and the kernel reads the flat buffer at that stride, so
the stored vectors are silently misread (see the counterexample). -/
theorem c6_dimension_mismatch {sim : List ℚ → List ℚ → ℚ} {q : String}
    {qv : List ℚ} {topK : ℤ} {md : List VectorMetadata} {vecs : List ℚ}
    {dim : ℕ}
    (hbuf : vecs.length = md.length * dim)
    (hq : qv.length ≠ dim)
    (hmd : md ≠ []) :
    semanticSearch sim q qv topK md vecs dim =
      Except.error SimError.dimensionMismatch ∧
    hybridSearch sim q qv topK md vecs dim =
      Except.error SimError.dimensionMismatch := by
  obtain ⟨n, hn⟩ : ∃ n, md.length = n + 1 := by
    cases md with
    | nil => exact absurd rfl hmd
    | cons a l => exact ⟨l.length, rfl⟩
  have hslice : (sliceAt vecs dim 0).length = dim := by
    unfold sliceAt
    rw [Nat.zero_mul, List.drop_zero, List.length_take, hbuf, hn,
      Nat.succ_mul]
    exact Nat.min_eq_left (Nat.le_add_left dim (n * dim))
  have hcos : cosineSimilarity sim (sliceAt vecs dim 0) qv =
      Except.error SimError.dimensionMismatch := by
    unfold cosineSimilarity
    rw [if_neg]
    rw [hslice]
    exact fun hcontra => hq hcontra.symm
  have hker : cosine_similarity_dataspace sim vecs md.length dim qv =
      Except.error SimError.dimensionMismatch := by
    unfold cosine_similarity_dataspace
    rw [hn, List.range_succ_eq_map]
    simp only [exceptMap, hcos]
  constructor
  · unfold semanticSearch
    rw [hker]
  · unfold hybridSearch
    rw [hker]

/-- Claim C6 counterexample: two indexed vectors of different lengths
(3 and 2) scoped together are not rejected: the builder records the
last-seen dimensionality 2 and the kernel reads the 5-element buffer at
stride 2 against a 2-element query, so the search silently succeeds
with two results instead of failing with DimensionMismatch. -/
theorem c6_counterexample :
    (mixedDoc.vectorRecords.map (fun vr => vr.vector.length)) = [3, 2] ∧
    (search simExample embedTwo mixedStore "fox" 5 none
      SearchMode.semantic).map List.length = Except.ok 2 := by
  constructor
  · with_unfolding_all decide
  · with_unfolding_all decide

theorem c6_dimension_mismatch_witness :
    exampleVectors.length = exampleMetadata.length * 3 ∧
    semanticSearch simExample "fox" [1, 0] 5 exampleMetadata exampleVectors
      3 = Except.error SimError.dimensionMismatch := by
  have hbuf : exampleVectors.length = exampleMetadata.length * 3 := by
    with_unfolding_all decide
  refine ⟨hbuf, ?_⟩
  exact (c6_dimension_mismatch hbuf (by decide)
    (by with_unfolding_all decide)).1

/-- Claim C10 (amended): in hybrid mode every indexed chunk is assigned
a keyword rank even for a query that tokenizes to no tokens, so such a
query still returns min(topK, indexed chunks) results — unlike keyword
mode, where it returns an empty sequence; the output is ordered by
descending fused score, whose keyword ranks follow insertion order, so
it need not coincide with the pure semantic ordering (see the
counterexample). -/
theorem c10_hybrid_empty_query {sim : List ℚ → List ℚ → ℚ}
    {embed : String → List ℚ} {store : Store} {query : String} {topK : ℤ}
    {documentId : Option String} {rs : List SearchResult}
    (hq : tokenize query = [])
    (hok : search sim embed store query topK documentId SearchMode.hybrid =
      Except.ok rs)
    (hk : 0 ≤ topK) :
    rs.length = min topK.toNat
      (buildIndex (scopedDocs store documentId)).1.length ∧
    (∀ i j (hi : i < rs.length) (hj : j < rs.length), i < j →
      rs[j].similarity ≤ rs[i].similarity) ∧
    ((keywordSortedOf query
        (buildIndex (scopedDocs store documentId)).1).map (fun p => p.1)).Perm
      (List.range (buildIndex (scopedDocs store documentId)).1.length) ∧
    search sim embed store query topK documentId SearchMode.keyword =
      Except.ok [] := by
  refine ⟨?_, ?_, keywordSortedOf_keys_perm query _, ?_⟩
  · rcases search_hybrid_ok hok with ⟨hmd, rfl⟩ | hhyb
    · simp [hmd]
    · rcases hybridSearch_ok hhyb with ⟨rankings, hker, rfl⟩
      have hperm := (dataspace_ok _ _ _ _ _ _ hker).1
      have hcl := (hybridCandidates_spec (q := query) hperm).1
      unfold hybridFromRankings
      simp only [length_enum_map]
      rw [length_jsSliceTo_of_nonneg _ hk, length_sortDesc, hcl]
  · rcases search_hybrid_ok hok with ⟨-, rfl⟩ | hhyb
    · exact fun i j hi => by simp at hi
    · rcases hybridSearch_ok hhyb with ⟨rankings, -, rfl⟩
      unfold hybridFromRankings
      exact (resultMap_sorted_ranks query
        (fun c : ScoredCandidate =>
          (buildIndex (scopedDocs store documentId)).1.getD c.idx default)
        (fun c : ScoredCandidate => c.rrfScore)
        (fun c => some c.semanticScore) (fun c => some c.keywordScore) _
        (pairwise_jsSliceTo _ _ _)).1
  · rw [search_keyword_eq sim embed store query topK documentId]
    unfold keywordSearch
    rw [if_pos (by rw [hq]; rfl)]

/-- Claim C10 counterexample: with an empty query against three chunks
whose semantic order is c2, c0, c1, hybrid search returns c0 first
(fused score 1/62 + 1/61) ahead of the semantically best c2 (fused
score 1/61 + 1/63): the output follows the fused ranking with
insertion-order keyword ranks, not the semantic ranking. -/
theorem c10_counterexample :
    tokenize "" = [] ∧
    (search simExample embedExample c10Store "" 3 none
      SearchMode.hybrid).map (fun rs => rs.map (fun r => r.semanticScore)) =
      Except.ok [some (3 / 5), some 1, some 0] ∧
    (search simExample embedExample c10Store "" 3 none
      SearchMode.hybrid).map (fun rs => rs.map (fun r => r.id)) =
      Except.ok ["c0", "c2", "c1"] := by
  refine ⟨by decide, ?_, ?_⟩
  · with_unfolding_all decide
  · with_unfolding_all decide

set_option maxRecDepth 4000 in
theorem c10_hybrid_empty_query_witness :
    c10srs.length = min ((3 : ℤ)).toNat
      (buildIndex (scopedDocs smallStore none)).1.length ∧
    search simExample embedOne smallStore "" 3 none SearchMode.keyword =
      Except.ok [] := by
  have hok : search simExample embedOne smallStore "" 3 none
      SearchMode.hybrid = Except.ok c10srs := by
    with_unfolding_all decide
  have h := c10_hybrid_empty_query (by decide) hok (by decide)
  exact ⟨h.1, h.2.2.2⟩

end WasmSearch
